import Mathlib

/-
Verification development for the pocketbase fork: the core data-access layer
(statement classifier, dual-pool router, transaction manager, bootstrap
lifecycle, batch log sink) and the import command (collection-name derivation
and the upsert decision logic).

Strings are embedded as `List Char`.  The import command definitions are
translated from src/cmd/import.go.  The core implementation file is not part
of the sources (only its tests, src/core/base_test.go, are), so the core
definitions are modelled from the spec and cross-checked against the concrete
vectors appearing in those tests.
-/

set_option autoImplicit false

namespace Pocketbase

/-! ## Go standard library helpers over `List Char`
Models of the Go functions used by src/cmd/import.go (unix path rules). -/

/-- Model of Go filepath.Base (unix): empty path gives ".", trailing slashes are
stripped, everything up to the last slash is dropped, an all-slash path gives "/". -/
def goBase (path : List Char) : List Char :=
  if path = [] then ['.']
  else
    let trimmed := (path.reverse.dropWhile fun c => c == '/').reverse
    let base := (trimmed.reverse.takeWhile fun c => !(c == '/')).reverse
    if base = [] then ['/'] else base

/-- Helper for `goExt`: scans the reversed path, accumulating characters until the
first dot (returning the extension including the dot) or a path separator (no
extension). -/
def extAux : List Char → List Char → List Char
  | [], _ => []
  | c :: rest, acc =>
    if c == '/' then []
    else if c == '.' then '.' :: acc
    else extAux rest (c :: acc)

/-- Model of Go filepath.Ext: the suffix beginning at the final dot of the last
path element, empty if there is no dot. -/
def goExt (path : List Char) : List Char := extAux path.reverse []

/-- Model of Go strings.TrimSuffix. -/
def trimSuffix (s suf : List Char) : List Char :=
  if suf.isSuffixOf s then s.take (s.length - suf.length) else s

/-- Helper for `goSplit`: splits around each leftmost non-overlapping occurrence
of `sep`, accumulating the current piece reversed in `acc`.  Faithful to Go
strings.Split for nonempty `sep`, which is the only way the code calls it.
Structural recursion on an explicit fuel bound (every step consumes at least
one character, so fuel equal to the string length suffices). -/
def splitAux (sep : List Char) : Nat → List Char → List Char → List (List Char)
  | _, [], acc => [acc.reverse]
  | 0, s, acc => [acc.reverse ++ s]
  | fuel + 1, c :: rest, acc =>
    if sep.isPrefixOf (c :: rest) then
      acc.reverse :: splitAux sep fuel (rest.drop (sep.length - 1)) []
    else
      splitAux sep fuel rest (c :: acc)

/-- Model of Go strings.Split (for nonempty separator). -/
def goSplit (s sep : List Char) : List (List Char) := splitAux sep s.length s []

/-! ## src/cmd/import.go -/

/-- The separator used by extractCollectionName. -/
def exportSep : List Char := String.toList "_export_"

/-- extractCollectionName from src/cmd/import.go: base name of the file, minus
its extension; empty result gives ""; otherwise split on "_export_" and
return the first piece when it is nonempty, else the whole stripped name. -/
def extractCollectionName (jsonFile : List Char) : List Char :=
  let baseName := goBase jsonFile
  let extWithoutExt := trimSuffix baseName (goExt baseName)
  if extWithoutExt = [] then []
  else
    match goSplit extWithoutExt exportSep with
    | [] => extWithoutExt
    | p0 :: _ => if p0 = [] then extWithoutExt else p0

/-- The extension-stripped base name of a path (the `extWithoutExt` value that
`extractCollectionName` computes). -/
def extStripped (jsonFile : List Char) : List Char :=
  trimSuffix (goBase jsonFile) (goExt (goBase jsonFile))

/-- The prefix of a string before the first occurrence of `sep` (the whole
string when `sep` does not occur): the claimed characterization of truncating
at the first occurrence of the separator. -/
def truncAtFirst (sep : List Char) : List Char → List Char
  | [] => []
  | c :: rest => if sep.isPrefixOf (c :: rest) then [] else c :: truncAtFirst sep rest

/-- Collection-name resolution from the import command RunE (src/cmd/import.go):
an explicit nonempty argument wins; otherwise the name is derived from the file
path, and an empty derivation makes the command fail (`none`). -/
def resolveCollectionName (argName jsonFile : List Char) : Option (List Char) :=
  if argName = [] then
    let derived := extractCollectionName jsonFile
    if derived = [] then none else some derived
  else some argName

/-- ImportOptions from src/cmd/import.go restricted to the fields the upsert
decision reads (BatchSize only controls batching, not the per-record decision). -/
structure ImportOptions where
  uniqueKeys : List (List Char)
  upsertMode : Bool
  skipUpdate : Bool
deriving DecidableEq

/-- Shallow model of core.Record as the import command observes it: the string
field values consulted by GetString, the `updated` timestamp consulted by
GetDateTime (0 models the zero DateTime, i.e. missing/zero timestamp), the
record Id, and the new/not-new flag (MarkAsNotNew sets it to false). -/
structure Record where
  id : List Char
  fields : List (List Char × List Char)
  updated : Nat
  isNew : Bool
deriving DecidableEq

/-- Record.GetString: the stored string value of the field, "" when absent. -/
def Record.getString (r : Record) (key : List Char) : List Char :=
  match r.fields.lookup key with
  | some v => v
  | none => []

/-- shouldUpdate from src/cmd/import.go: update when either timestamp is the
zero time, otherwise exactly when the incoming updated time is strictly after
the existing one (time.After). -/
def shouldUpdate (existingRecord newRecord : Record) : Bool :=
  let existingUpdated := existingRecord.updated
  let newUpdated := newRecord.updated
  if newUpdated = 0 ∨ existingUpdated = 0 then true
  else decide (existingUpdated < newUpdated)

/-- The unique-key probing loop of processBatchInsert: try each unique key in
order and keep the first nonempty value; "" when all values are empty. -/
def firstKeyValue (record : Record) : List (List Char) → List Char
  | [] => []
  | k :: rest =>
    let v := record.getString k
    if v = [] then firstKeyValue record rest else v

/-- What processBatchInsert does with one generated record: append it to the
pending batch (`save`) or drop it (`skipRecord`). -/
inductive UpsertAction where
  | save (r : Record)
  | skipRecord
deriving DecidableEq

/-- The per-record body of the processBatchInsert loop from src/cmd/import.go
(first file version): the upsert/skip-update branch looks the record up by its
first nonempty unique-key value in the preloaded map, skips it when the value
is empty or when SkipUpdate is set or when shouldUpdate refuses, saves it as an
update (existing Id, marked not new) when shouldUpdate accepts, and saves it as
a new record (also recording it in the map) when no existing record matches.
Returns the action taken and the updated existing-records map. -/
def upsertStep (opts : ImportOptions) (existingRecords : List (List Char × Record))
    (record : Record) : UpsertAction × List (List Char × Record) :=
  if (opts.upsertMode || opts.skipUpdate) && !opts.uniqueKeys.isEmpty then
    let keyValue := firstKeyValue record opts.uniqueKeys
    if keyValue = [] then (.skipRecord, existingRecords)
    else
      match existingRecords.lookup keyValue with
      | some existingRecord =>
        if opts.skipUpdate then (.skipRecord, existingRecords)
        else if shouldUpdate existingRecord record then
          (.save { record with id := existingRecord.id, isNew := false }, existingRecords)
        else (.skipRecord, existingRecords)
      | none => (.save record, (keyValue, record) :: existingRecords)
  else (.save record, existingRecords)

/-! ## The core (modelled from the spec)
The core implementation file is not among the sources; only src/core/base_test.go
is.  The definitions below are modelled from the spec (sections 3, 4.1-4.5) and
are cross-checked against the concrete vectors of those tests. -/

/-- Modelled from the spec: the two statement classes of the classifier. -/
inductive StmtClass where
  | concurrent
  | nonconcurrent
deriving DecidableEq

/-- Leading whitespace stripped by the classifier: spaces, newlines, tabs,
carriage returns. -/
def isSqlSpace (c : Char) : Bool := c == ' ' || c == '\n' || c == '\t' || c == '\r'

/-- ASCII case folding used for the case-insensitive keyword comparison. -/
def asciiLower (c : Char) : Char :=
  if 'A' ≤ c ∧ c ≤ 'Z' then Char.ofNat (c.toNat + 32) else c

/-- The keyword "select". -/
def selectKw : List Char := String.toList "select"

/-- The keyword "with". -/
def withKw : List Char := String.toList "with"

/-- The whitespace-trimmed, case-folded form of a statement. -/
def normalizeStmt (s : List Char) : List Char := (s.dropWhile isSqlSpace).map asciiLower

/-- Modelled from the spec: the statement classifier (core implementation file
missing from the sources).  Strip leading whitespace, fold case, and match the
keyword set select/with as a prefix; any match is Concurrent, everything else
is Nonconcurrent. -/
def classify (s : List Char) : StmtClass :=
  if selectKw.isPrefixOf (normalizeStmt s) || withKw.isPrefixOf (normalizeStmt s) then
    .concurrent
  else .nonconcurrent

/-- Modelled from the spec: the Settings fields the core reads. -/
structure Settings where
  logsMaxDays : Int
  logsMinLevel : Int
deriving DecidableEq

/-- Modelled from the spec: the running batch handler state, carrying the
minimum level it currently enforces. -/
structure LoggerState where
  minLevel : Int
deriving DecidableEq

/-- Modelled from the spec: a structured log record (content irrelevant to the
claims, which count records). -/
structure LogRecord where
  message : List Char
deriving DecidableEq

/-- Modelled from the spec: the in-memory batch buffer plus the number of rows
persisted in the log table. -/
structure LogSinkState where
  buffer : List LogRecord
  persisted : Nat
deriving DecidableEq

/-- The batch flush threshold (200 records). -/
def logsThreshold : Nat := 200

/-- Modelled from the spec: BatchLogSink.Write.  With MaxDays <= 0 persistence
is fully disabled (the write is accepted but produces nothing); otherwise the
record is appended and reaching the threshold synchronously drains the whole
buffer into persisted rows. -/
def logWrite (maxDays : Int) (rec : LogRecord) (st : LogSinkState) : LogSinkState :=
  if maxDays ≤ 0 then st
  else
    let buf := st.buffer ++ [rec]
    if logsThreshold ≤ buf.length then { buffer := [], persisted := st.persisted + buf.length }
    else { buffer := buf, persisted := st.persisted }

/-- Draining the buffer into persisted rows. -/
def flushSink (st : LogSinkState) : LogSinkState :=
  { buffer := [], persisted := st.persisted + st.buffer.length }

/-- Modelled from the spec: one background timer tick (~3s period) drains any
nonempty buffer regardless of size. -/
def logTimerTick (st : LogSinkState) : LogSinkState :=
  if st.buffer = [] then st else flushSink st

/-- A sequence of `n` writes of the same record. -/
def writeN (maxDays : Int) (rec : LogRecord) : Nat → LogSinkState → LogSinkState
  | 0, st => st
  | n + 1, st => writeN maxDays rec n (logWrite maxDays rec st)

/-- Pure counting abstraction of `writeN` with persistence enabled: given the
current buffer length and persisted count, the pair after `n` more writes. -/
def sinkCounts : Nat → Nat → Nat → Nat × Nat
  | 0, buf, p => (buf, p)
  | n + 1, buf, p =>
    if logsThreshold ≤ buf + 1 then sinkCounts n 0 (p + (buf + 1))
    else sinkCounts n (buf + 1) p

/-- Modelled from the spec: the transaction context attached to a transactional
app view: which pool pair it serializes on and the exclusive nonconcurrent
connection it holds. -/
structure TxInfo where
  aux : Bool
  conn : Nat
deriving DecidableEq

/-- Modelled from the spec: the application instance state the claims observe:
the four pool handles (nil before bootstrap and after reset), settings, the
running logger handler, the generic store contents, the log sink, and the
transaction context of this view (none on a non-transactional view). -/
structure BaseApp where
  isDev : Bool
  concurrentDB : Option Nat
  nonconcurrentDB : Option Nat
  auxConcurrentDB : Option Nat
  auxNonconcurrentDB : Option Nat
  settings : Option Settings
  logger : Option LoggerState
  store : List (List Char × Nat)
  logSink : LogSinkState
  txInfo : Option TxInfo
deriving DecidableEq

/-- IsTransactional: whether this view carries a transaction context. -/
def BaseApp.isTransactional (app : BaseApp) : Bool := app.txInfo.isSome

/-- Modelled from the spec: bootstrapped exactly when the pools are open (both
pairs are nil before bootstrap and after reset). -/
def BaseApp.isBootstrapped (app : BaseApp) : Bool :=
  app.concurrentDB.isSome && app.nonconcurrentDB.isSome &&
    app.auxConcurrentDB.isSome && app.auxNonconcurrentDB.isSome

/-- DB(): the dual builder over the primary pair, nil unless both pools are open. -/
def BaseApp.db (app : BaseApp) : Option (Nat × Nat) :=
  match app.concurrentDB, app.nonconcurrentDB with
  | some a, some b => some (a, b)
  | _, _ => none

/-- AuxDB(): the dual builder over the auxiliary pair. -/
def BaseApp.auxDB (app : BaseApp) : Option (Nat × Nat) :=
  match app.auxConcurrentDB, app.auxNonconcurrentDB with
  | some a, some b => some (a, b)
  | _, _ => none

/-- The pool a statement is observed executing on. -/
inductive ExecPath where
  | concurrentPool
  | nonconcurrentPool
deriving DecidableEq

/-- Modelled from the spec: DB() routing.  When a transaction is active for the
view, every statement runs on the single transactional connection (held from
the nonconcurrent pool); otherwise the classifier routes the statement. -/
def dbRoute (app : BaseApp) (s : List Char) : ExecPath :=
  if app.txInfo.isSome then .nonconcurrentPool
  else
    match classify s with
    | .concurrent => .concurrentPool
    | .nonconcurrent => .nonconcurrentPool

/-- Observable events of the transaction machinery: acquiring the nonconcurrent
connection, beginning, committing, rolling back. -/
inductive TxEvent where
  | acquire
  | beginTx
  | commitTx
  | rollbackTx
deriving DecidableEq

/-- The nonconcurrent handle of the chosen pool pair. -/
def poolConn (app : BaseApp) (aux : Bool) : Option Nat :=
  if aux then app.auxNonconcurrentDB else app.nonconcurrentDB

/-- The transactional app view handed to a transaction callback. -/
def mkTxApp (app : BaseApp) (aux : Bool) (conn : Nat) : BaseApp :=
  { app with txInfo := some { aux := aux, conn := conn } }

/-- Modelled from the spec: RunInTransaction / AuxRunInTransaction.  A view
already transactional for the target pool pair collapses reentrantly: the
callback is invoked directly on the same view with no acquisition, begin,
commit or rollback.  Otherwise the nonconcurrent connection is acquired, a
transaction begins, the callback runs against a fresh transactional view, and
the outermost call commits on success or rolls back on error.  The callback
returns its result together with the events its own body performed; the
function returns the overall result and the full event list. -/
def runInTx (aux : Bool) (app : BaseApp)
    (fn : BaseApp → Except String Unit × List TxEvent) :
    Except String Unit × List TxEvent :=
  if app.txInfo.map TxInfo.aux = some aux then fn app
  else
    match poolConn app aux with
    | none => (.error "database is not initialized", [])
    | some conn =>
      let txApp := mkTxApp app aux conn
      let r := fn txApp
      match r.1 with
      | .ok _ => (.ok (), TxEvent.acquire :: TxEvent.beginTx :: (r.2 ++ [TxEvent.commitTx]))
      | .error e => (.error e, TxEvent.acquire :: TxEvent.beginTx :: (r.2 ++ [TxEvent.rollbackTx]))

/-- RunInTransaction: a transaction on the primary pool pair. -/
def runInTransaction : BaseApp → (BaseApp → Except String Unit × List TxEvent) →
    Except String Unit × List TxEvent := runInTx false

/-- AuxRunInTransaction: a transaction on the auxiliary pool pair. -/
def auxRunInTransaction : BaseApp → (BaseApp → Except String Unit × List TxEvent) →
    Except String Unit × List TxEvent := runInTx true

/-- Modelled from the spec: ResetBootstrapState flushes the pending log batch,
closes the four pools (nilling them), preserves Settings, Logger and the
generic store, and is a no-op returning nil when already unbootstrapped. -/
def resetBootstrapState (app : BaseApp) : Except String Unit × BaseApp :=
  if app.isBootstrapped then
    (.ok (), { app with
      logSink := flushSink app.logSink,
      concurrentDB := none, nonconcurrentDB := none,
      auxConcurrentDB := none, auxNonconcurrentDB := none })
  else (.ok (), app)

/-- Modelled from the spec: the handler level in force after a settings reload;
dev mode enables one severity level lower than configured. -/
def effectiveMinLevel (isDev : Bool) (minLevel : Int) : Int :=
  if isDev then minLevel - 1 else minLevel

/-- Enabled(level) of the running batch handler. -/
def handlerEnabled (lg : LoggerState) (level : Int) : Bool :=
  decide (lg.minLevel ≤ level)

/-- Modelled from the spec: Save(settings) stores the settings and immediately
refreshes the running handler level, with no restart or reload step. -/
def saveSettings (app : BaseApp) (s : Settings) : BaseApp :=
  { app with
    settings := some s,
    logger := app.logger.map fun _ =>
      { minLevel := effectiveMinLevel app.isDev s.logsMinLevel } }

/-- A bootstrapped app fixture used by the closed witness statements. -/
def appFix (tx : Option TxInfo) : BaseApp :=
  { isDev := false
    concurrentDB := some 1
    nonconcurrentDB := some 2
    auxConcurrentDB := some 3
    auxNonconcurrentDB := some 4
    settings := some { logsMaxDays := 1, logsMinLevel := 4 }
    logger := some { minLevel := 4 }
    store := [(String.toList "pbAppCachedCollections", 7)]
    logSink := { buffer := [], persisted := 0 }
    txInfo := tx }

/-! ## Helper lemmas -/

theorem isPrefixOf_iff_exists (l₁ l₂ : List Char) :
    l₁.isPrefixOf l₂ = true ↔ ∃ t, l₁ ++ t = l₂ := by
  induction l₁ generalizing l₂ with
  | nil => simp [List.isPrefixOf]
  | cons c cs ih =>
    cases l₂ with
    | nil => simp [List.isPrefixOf]
    | cons d ds =>
      simp only [List.isPrefixOf, Bool.and_eq_true, beq_iff_eq, ih, List.cons_append,
        List.cons.injEq]
      constructor
      · rintro ⟨rfl, t, rfl⟩
        exact ⟨t, rfl, rfl⟩
      · rintro ⟨t, rfl, rfl⟩
        exact ⟨rfl, t, rfl⟩

theorem splitAux_head (sep : List Char) (fuel : Nat) :
    ∀ (s acc : List Char), s.length ≤ fuel →
      (splitAux sep fuel s acc).head? = some (acc.reverse ++ truncAtFirst sep s) := by
  induction fuel with
  | zero =>
    intro s acc h
    cases s with
    | nil => simp [splitAux, truncAtFirst]
    | cons c rest => simp at h
  | succ f ih =>
    intro s acc h
    cases s with
    | nil => simp [splitAux, truncAtFirst]
    | cons c rest =>
      have hr : rest.length ≤ f := by
        simp only [List.length_cons] at h
        omega
      by_cases hp : sep.isPrefixOf (c :: rest) = true
      · simp [splitAux, hp, truncAtFirst]
      · simp only [splitAux, hp, if_neg, Bool.false_eq_true, ite_false, truncAtFirst,
          ih rest (c :: acc) hr, List.reverse_cons, List.append_assoc, List.singleton_append]

theorem logTimerTick_persisted (st : LogSinkState) :
    (logTimerTick st).persisted = st.persisted + st.buffer.length := by
  unfold logTimerTick flushSink
  split
  · simp_all
  · rfl

theorem writeN_counts (rec : LogRecord) (n : Nat) :
    ∀ st : LogSinkState,
      (writeN 1 rec n st).buffer.length = (sinkCounts n st.buffer.length st.persisted).1 ∧
      (writeN 1 rec n st).persisted = (sinkCounts n st.buffer.length st.persisted).2 := by
  induction n with
  | zero => intro st; simp [writeN, sinkCounts]
  | succ n ih =>
    intro st
    have h10 : ¬((1 : Int) ≤ 0) := by norm_num
    by_cases h : logsThreshold ≤ st.buffer.length + 1
    · have hw : logWrite 1 rec st
          = { buffer := [], persisted := st.persisted + (st.buffer.length + 1) } := by
        simp [logWrite, h10, List.length_append, h]
      have hs : sinkCounts (n + 1) st.buffer.length st.persisted
          = sinkCounts n 0 (st.persisted + (st.buffer.length + 1)) := by
        simp [sinkCounts, h]
      rw [writeN, hw, hs]
      simpa using ih { buffer := [], persisted := st.persisted + (st.buffer.length + 1) }
    · have hw : logWrite 1 rec st
          = { buffer := st.buffer ++ [rec], persisted := st.persisted } := by
        simp [logWrite, h10, List.length_append, h]
      have hs : sinkCounts (n + 1) st.buffer.length st.persisted
          = sinkCounts n (st.buffer.length + 1) st.persisted := by
        simp [sinkCounts, h]
      rw [writeN, hw, hs]
      simpa [List.length_append] using
        ih { buffer := st.buffer ++ [rec], persisted := st.persisted }

theorem shouldUpdate_iff (ex r : Record) :
    shouldUpdate ex r = true ↔ (r.updated = 0 ∨ ex.updated = 0 ∨ ex.updated < r.updated) := by
  unfold shouldUpdate
  by_cases h : r.updated = 0 ∨ ex.updated = 0
  · simp only [if_pos h, true_iff]
    tauto
  · simp only [if_neg h, decide_eq_true_eq]
    push_neg at h
    constructor
    · intro hlt
      exact Or.inr (Or.inr hlt)
    · rintro (h0 | h0 | hlt)
      · exact absurd h0 h.1
      · exact absurd h0 h.2
      · exact hlt

theorem firstKeyValue_eq_nil (r : Record) (keys : List (List Char))
    (h : ∀ k ∈ keys, r.getString k = []) : firstKeyValue r keys = [] := by
  induction keys with
  | nil => rfl
  | cons k rest ih =>
    have hk := h k (List.mem_cons_self k rest)
    simp only [firstKeyValue, hk, if_pos]
    exact ih fun x hx => h x (List.mem_cons_of_mem k hx)

theorem goSplit_head (s sep : List Char) :
    (goSplit s sep).head? = some (truncAtFirst sep s) := by
  unfold goSplit
  simpa using splitAux_head sep s.length s [] (le_refl _)

/-! ## Claims -/

/-- C10: For every input file path, the derived collection name is the file base
name with its extension removed, truncated at the first occurrence of
"_export_"; the derivation is empty exactly when the extension-stripped base
name is empty (and only then does the command fail asking for a manual name);
and when the extension-stripped base name itself starts with "_export_" the
full extension-stripped base name is returned rather than the empty piece. -/
theorem extractCollectionName_spec (p : List Char) :
    (extractCollectionName p
      = (if extStripped p = [] then []
         else if truncAtFirst exportSep (extStripped p) = [] then extStripped p
         else truncAtFirst exportSep (extStripped p))) ∧
    (extractCollectionName p = [] ↔ extStripped p = []) ∧
    (exportSep.isPrefixOf (extStripped p) = true → extStripped p ≠ [] →
      extractCollectionName p = extStripped p) ∧
    (resolveCollectionName [] p = none ↔ extStripped p = []) := by
  obtain ⟨ts, hts⟩ : ∃ ts,
      goSplit (extStripped p) exportSep = truncAtFirst exportSep (extStripped p) :: ts := by
    have hh := goSplit_head (extStripped p) exportSep
    cases hg : goSplit (extStripped p) exportSep with
    | nil => rw [hg] at hh; simp at hh
    | cons a l =>
      rw [hg] at hh
      simp only [List.head?, Option.some.injEq] at hh
      exact ⟨l, by rw [hh]⟩
  have hmain : extractCollectionName p
      = (if extStripped p = [] then []
         else if truncAtFirst exportSep (extStripped p) = [] then extStripped p
         else truncAtFirst exportSep (extStripped p)) := by
    simp only [extStripped] at hts ⊢
    unfold extractCollectionName
    dsimp only
    by_cases h0 : trimSuffix (goBase p) (goExt (goBase p)) = []
    · simp only [if_pos h0]
    · rw [if_neg h0, if_neg h0, hts]
  have hiff : extractCollectionName p = [] ↔ extStripped p = [] := by
    constructor
    · intro h
      by_contra h0
      rw [hmain, if_neg h0] at h
      by_cases ht : truncAtFirst exportSep (extStripped p) = []
      · rw [if_pos ht] at h; exact h0 h
      · rw [if_neg ht] at h; exact ht h
    · intro h; rw [hmain, if_pos h]
  refine ⟨hmain, hiff, ?_, ?_⟩
  · intro hpre h0
    have ht : truncAtFirst exportSep (extStripped p) = [] := by
      cases he : extStripped p with
      | nil => exact absurd he h0
      | cons c rest =>
        rw [he] at hpre
        simp [truncAtFirst, hpre]
    rw [hmain, if_neg h0, if_pos ht]
  · have hres : resolveCollectionName [] p
        = (if extractCollectionName p = [] then none else some (extractCollectionName p)) := rfl
    rw [hres]
    by_cases hx : extractCollectionName p = []
    · rw [if_pos hx]
      simpa using hiff.mp hx
    · rw [if_neg hx]
      constructor
      · intro hc; exact absurd hc (by simp)
      · intro hc; exact absurd (hiff.mpr hc) hx

/-- C10 witness: a path whose extension-stripped base name itself starts with
"_export_" derives the full stripped name, not the empty piece. -/
theorem extractCollectionName_spec_witness :
    extractCollectionName (String.toList "_export_foo.json") = extStripped (String.toList "_export_foo.json") :=
  (extractCollectionName_spec (String.toList "_export_foo.json")).2.2.1 (by decide) (by decide)

/-- C9: In upsert mode (UpsertMode set, SkipUpdate unset, nonempty UniqueKeys),
a record whose every unique-key value is empty is always skipped; a record
whose first nonempty unique-key value matches a preloaded existing record is
saved as an update reusing the existing Id (and marked not new) exactly when
the incoming updated timestamp is strictly after the existing one or either
timestamp is zero/missing, and is skipped (not saved) otherwise. -/
theorem upsertStep_update_iff (opts : ImportOptions)
    (existingRecords : List (List Char × Record)) (record ex : Record)
    (h1 : opts.upsertMode = true) (h2 : opts.skipUpdate = false)
    (h3 : opts.uniqueKeys ≠ []) :
    ((∀ k ∈ opts.uniqueKeys, record.getString k = []) →
      upsertStep opts existingRecords record = (.skipRecord, existingRecords)) ∧
    (firstKeyValue record opts.uniqueKeys ≠ [] →
      existingRecords.lookup (firstKeyValue record opts.uniqueKeys) = some ex →
      ((upsertStep opts existingRecords record
          = (.save { record with id := ex.id, isNew := false }, existingRecords)
        ↔ (record.updated = 0 ∨ ex.updated = 0 ∨ ex.updated < record.updated)) ∧
       (¬(record.updated = 0 ∨ ex.updated = 0 ∨ ex.updated < record.updated) →
        upsertStep opts existingRecords record = (.skipRecord, existingRecords)))) := by
  have hcond : ((opts.upsertMode || opts.skipUpdate) && !opts.uniqueKeys.isEmpty) = true := by
    rw [h1]
    cases hk : opts.uniqueKeys with
    | nil => exact absurd hk h3
    | cons a l => simp [hk]
  constructor
  · intro hall
    have hkv := firstKeyValue_eq_nil record opts.uniqueKeys hall
    unfold upsertStep
    rw [if_pos hcond]
    dsimp only
    rw [if_pos hkv]
  · intro hkv hlook
    unfold upsertStep
    rw [if_pos hcond]
    dsimp only
    rw [if_neg hkv, hlook]
    dsimp only
    rw [if_neg (show ¬(opts.skipUpdate = true) by simp [h2])]
    by_cases hs : shouldUpdate ex record = true
    · rw [if_pos hs]
      refine ⟨⟨fun _ => (shouldUpdate_iff ex record).mp hs, fun _ => rfl⟩, ?_⟩
      intro hneg
      exact ((hneg ((shouldUpdate_iff ex record).mp hs)).elim)
    · rw [if_neg hs]
      refine ⟨⟨fun habs => ?_, fun hd => ?_⟩, fun _ => rfl⟩
      · simp at habs
      · exact absurd ((shouldUpdate_iff ex record).mpr hd) hs

/-- Fixture key name for the C9 witness. -/
def keyEmail : List Char := String.toList "email"

/-- Fixture unique-key value for the C9 witness. -/
def keyVal : List Char := String.toList "a@b.c"

/-- Fixture existing record for the C9 witness (updated = 3). -/
def exRec : Record :=
  { id := String.toList "old1", fields := [(keyEmail, keyVal)], updated := 3, isNew := false }

/-- Fixture incoming record for the C9 witness (updated = 5, strictly newer). -/
def newRec : Record :=
  { id := [], fields := [(keyEmail, keyVal)], updated := 5, isNew := true }

/-- Fixture options for the C9 witness: upsert mode, one unique key. -/
def optsFix : ImportOptions :=
  { uniqueKeys := [keyEmail], upsertMode := true, skipUpdate := false }

/-- C9 witness: a strictly newer incoming record matching an existing one is
saved as an update carrying the existing Id and marked not new. -/
theorem upsertStep_update_iff_witness :
    upsertStep optsFix [(keyVal, exRec)] newRec
      = (.save { newRec with id := exRec.id, isNew := false }, [(keyVal, exRec)]) :=
  ((upsertStep_update_iff optsFix [(keyVal, exRec)] newRec exRec rfl rfl (by decide)).2
    (by decide) (by decide)).1.mpr (by decide)

/-- C1: classify returns Concurrent exactly when the whitespace-trimmed,
case-folded form of the statement has select or with as a prefix; the concrete
DDL/DML statements of the dual-builder test all classify Nonconcurrent and the
two read statements classify Concurrent. -/
theorem classify_concurrent_iff :
    (∀ s : List Char, classify s = .concurrent ↔
      ((∃ rest, selectKw ++ rest = normalizeStmt s) ∨
       (∃ rest, withKw ++ rest = normalizeStmt s))) ∧
    classify (String.toList "  \n  sEleCt 1") = .concurrent ∧
    classify (String.toList "With abc(x) AS (select 2) SELECT x FROM abc") = .concurrent ∧
    classify (String.toList "create table t1(x int)") = .nonconcurrent ∧
    classify (String.toList "insert into t1(x) values(1)") = .nonconcurrent ∧
    classify (String.toList "update t1 set x = 2") = .nonconcurrent ∧
    classify (String.toList "delete from t1") = .nonconcurrent := by
  refine ⟨fun s => ?_, by decide, by decide, by decide, by decide, by decide, by decide⟩
  have hiff : (selectKw.isPrefixOf (normalizeStmt s) || withKw.isPrefixOf (normalizeStmt s)) = true ↔
      ((∃ rest, selectKw ++ rest = normalizeStmt s) ∨
       (∃ rest, withKw ++ rest = normalizeStmt s)) := by
    rw [Bool.or_eq_true, isPrefixOf_iff_exists, isPrefixOf_iff_exists]
  unfold classify
  by_cases h : (selectKw.isPrefixOf (normalizeStmt s) || withKw.isPrefixOf (normalizeStmt s)) = true
  · rw [if_pos h]
    simp only [true_iff]
    exact hiff.mp h
  · rw [if_neg h]
    constructor
    · intro hco; exact absurd hco (by decide)
    · intro hd; exact absurd (hiff.mpr hd) h

/-- C2: on a transactional view (the view RunInTransaction or
AuxRunInTransaction hands to its callback) every statement — including ones the
classifier marks read-only — is observed on the nonconcurrent execution path;
classifier-based routing applies only when no transaction is active. -/
theorem dbRoute_transaction_suspends_routing (app : BaseApp) (aux : Bool) (c : Nat)
    (s : List Char) :
    dbRoute (mkTxApp app aux c) s = .nonconcurrentPool ∧
    (app.txInfo = none →
      dbRoute app s
        = (if classify s = .concurrent then .concurrentPool else .nonconcurrentPool)) ∧
    dbRoute (mkTxApp app aux c) (String.toList "select 3") = .nonconcurrentPool ∧
    dbRoute (mkTxApp app aux c) (String.toList " \n WITH abc(x) AS (select 4) SELECT x FROM abc")
      = .nonconcurrentPool := by
  refine ⟨?_, ?_, ?_, ?_⟩
  · simp [dbRoute, mkTxApp]
  · intro h
    simp only [dbRoute, h, Option.isSome_none, Bool.false_eq_true, if_false]
    cases hc : classify s <;> simp [hc]
  · simp [dbRoute, mkTxApp]
  · simp [dbRoute, mkTxApp]

/-- C2 witness: outside a transaction a read-classified statement routes to the
concurrent pool. -/
theorem dbRoute_transaction_suspends_routing_witness :
    dbRoute (appFix none) (String.toList "  \n  sEleCt 1") = .concurrentPool := by
  have h := (dbRoute_transaction_suspends_routing (appFix none) false 2
    (String.toList "  \n  sEleCt 1")).2.1 rfl
  rw [h]
  decide

/-- C3: calling RunInTransaction on a non-transactional view runs the callback
against a transactional view carrying IsTransactional() = true and a non-nil
TxInfo(), the overall result (success or error) is the callback's result, and
the original view stays non-transactional (IsTransactional() = false,
TxInfo() = nil) after the call returns. -/
theorem runInTransaction_tx_scope (app : BaseApp) (c : Nat)
    (fn : BaseApp → Except String Unit × List TxEvent)
    (h1 : app.txInfo = none) (h2 : app.nonconcurrentDB = some c) :
    (runInTransaction app fn).1 = (fn (mkTxApp app false c)).1 ∧
    (mkTxApp app false c).isTransactional = true ∧
    (mkTxApp app false c).txInfo ≠ none ∧
    app.isTransactional = false ∧
    app.txInfo = none := by
  refine ⟨?_, by simp [mkTxApp, BaseApp.isTransactional], by simp [mkTxApp],
    by simp [BaseApp.isTransactional, h1], h1⟩
  have hcond : ¬(app.txInfo.map TxInfo.aux = some false) := by rw [h1]; simp
  show (runInTx false app fn).1 = (fn (mkTxApp app false c)).1
  unfold runInTx
  rw [if_neg hcond]
  have hpc : poolConn app false = some c := by simp [poolConn, h2]
  rw [hpc]
  dsimp only
  cases hres : (fn (mkTxApp app false c)).1 with
  | ok u => cases u; simp [hres]
  | error e => simp [hres]

/-- C3 witness: the transactional view built over the fixture app is
transactional. -/
theorem runInTransaction_tx_scope_witness :
    (mkTxApp (appFix none) false 2).isTransactional = true :=
  (runInTransaction_tx_scope (appFix none) 2
    (fun _ => ((Except.ok () : Except String Unit), ([] : List TxEvent))) rfl rfl).2.1

/-- C4: a RunInTransaction call on a view already transactional for the same
pool pair invokes the callback directly on that same view — performing no new
connection acquisition, begin, commit or rollback (in this model, deadlock
against the size-1 nonconcurrent pool is a second acquire event, so none can
occur) — and a nested call adds exactly one acquire and exactly one
commit-or-rollback over the callback's own events, both from the outermost
call. -/
theorem runInTransaction_reentrant_collapse (app : BaseApp) (c : Nat)
    (fn : BaseApp → Except String Unit × List TxEvent)
    (h1 : app.txInfo = none) (h2 : app.nonconcurrentDB = some c) :
    (∀ (txView : BaseApp) (i : TxInfo), txView.txInfo = some i → i.aux = false →
      runInTransaction txView fn = fn txView) ∧
    ((runInTransaction app fun txApp => runInTransaction txApp fn).2.count TxEvent.acquire
      = (fn (mkTxApp app false c)).2.count TxEvent.acquire + 1) ∧
    ((runInTransaction app fun txApp => runInTransaction txApp fn).2.count TxEvent.commitTx
        + (runInTransaction app fun txApp => runInTransaction txApp fn).2.count TxEvent.rollbackTx
      = (fn (mkTxApp app false c)).2.count TxEvent.commitTx
        + (fn (mkTxApp app false c)).2.count TxEvent.rollbackTx + 1) := by
  have hre : ∀ (txView : BaseApp) (i : TxInfo), txView.txInfo = some i → i.aux = false →
      runInTransaction txView fn = fn txView := by
    intro txView i hi haux
    show runInTx false txView fn = fn txView
    unfold runInTx
    rw [hi]
    simp [haux]
  have houter : runInTransaction app (fun txApp => runInTransaction txApp fn)
      = (match (fn (mkTxApp app false c)).1 with
         | .ok _ => ((.ok () : Except String Unit), TxEvent.acquire :: TxEvent.beginTx ::
            ((fn (mkTxApp app false c)).2 ++ [TxEvent.commitTx]))
         | .error e => (.error e, TxEvent.acquire :: TxEvent.beginTx ::
            ((fn (mkTxApp app false c)).2 ++ [TxEvent.rollbackTx]))) := by
    have hcond : ¬(app.txInfo.map TxInfo.aux = some false) := by rw [h1]; simp
    have hinner : runInTransaction (mkTxApp app false c) fn = fn (mkTxApp app false c) :=
      hre (mkTxApp app false c) ⟨false, c⟩ rfl rfl
    show runInTx false app (fun txApp => runInTransaction txApp fn) = _
    unfold runInTx
    rw [if_neg hcond]
    have hpc : poolConn app false = some c := by simp [poolConn, h2]
    rw [hpc]
    dsimp only
    rw [hinner]
  refine ⟨hre, ?_, ?_⟩
  · rw [houter]
    cases hres : (fn (mkTxApp app false c)).1 with
    | ok u =>
      simp [List.count_cons, List.count_append]
    | error e =>
      simp [List.count_cons, List.count_append]
  · rw [houter]
    cases hres : (fn (mkTxApp app false c)).1 with
    | ok u =>
      simp [List.count_cons, List.count_append]
      omega
    | error e =>
      simp [List.count_cons, List.count_append]
      omega

/-- C4 witness: a reentrant call on an already-transactional view is exactly
the callback invocation. -/
theorem runInTransaction_reentrant_collapse_witness :
    runInTransaction (mkTxApp (appFix none) false 2)
        (fun _ => ((Except.ok () : Except String Unit), ([] : List TxEvent)))
      = ((Except.ok () : Except String Unit), ([] : List TxEvent)) :=
  (runInTransaction_reentrant_collapse (appFix none) 2
      (fun _ => ((Except.ok () : Except String Unit), ([] : List TxEvent))) rfl rfl).1
    (mkTxApp (appFix none) false 2) ⟨false, 2⟩ rfl rfl

/-- C5: on a bootstrapped app, ResetBootstrapState succeeds and afterwards all
six pool accessors (DB, ConcurrentDB, NonconcurrentDB, AuxDB, AuxConcurrentDB,
AuxNonconcurrentDB) are nil, while Settings, Logger and the generic store
contents are the very same non-nil instances as before; on an unbootstrapped
app the call is a no-op returning nil. -/
theorem resetBootstrapState_frame (app : BaseApp)
    (hb : app.isBootstrapped = true)
    (hs : app.settings.isSome = true) (hl : app.logger.isSome = true) :
    ((resetBootstrapState app).1 = .ok () ∧
     (resetBootstrapState app).2.db = none ∧
     (resetBootstrapState app).2.concurrentDB = none ∧
     (resetBootstrapState app).2.nonconcurrentDB = none ∧
     (resetBootstrapState app).2.auxDB = none ∧
     (resetBootstrapState app).2.auxConcurrentDB = none ∧
     (resetBootstrapState app).2.auxNonconcurrentDB = none ∧
     (resetBootstrapState app).2.settings = app.settings ∧
     (resetBootstrapState app).2.logger = app.logger ∧
     (resetBootstrapState app).2.store = app.store ∧
     (resetBootstrapState app).2.settings.isSome = true ∧
     (resetBootstrapState app).2.logger.isSome = true) ∧
    (∀ app2 : BaseApp, app2.isBootstrapped = false → resetBootstrapState app2 = (.ok (), app2)) := by
  constructor
  · have hr : resetBootstrapState app
        = (.ok (), { app with
            logSink := flushSink app.logSink,
            concurrentDB := none, nonconcurrentDB := none,
            auxConcurrentDB := none, auxNonconcurrentDB := none }) := by
      unfold resetBootstrapState
      rw [if_pos hb]
    rw [hr]
    refine ⟨rfl, rfl, rfl, rfl, rfl, rfl, rfl, rfl, rfl, rfl, hs, hl⟩
  · intro app2 h
    unfold resetBootstrapState
    rw [if_neg (by simp [h])]

/-- C5 witness: resetting the bootstrapped fixture app nils the primary dual
builder. -/
theorem resetBootstrapState_frame_witness :
    (resetBootstrapState (appFix none)).2.db = none :=
  (resetBootstrapState_frame (appFix none) rfl rfl rfl).1.2.1

/-- C6: with Logs.MaxDays = 1 from an empty buffer and table, 199 writes
persist 0 rows; the 200th write reaches the 200-record threshold and
synchronously flushes exactly 200 rows; a 201st write stays buffered (the
table stays at 200 rows, one record pending) until the next timer tick, after
which 201 rows are persisted. -/
theorem logSink_threshold_behavior (rec : LogRecord) :
    (writeN 1 rec 199 { buffer := [], persisted := 0 }).persisted = 0 ∧
    (writeN 1 rec 200 { buffer := [], persisted := 0 }).persisted = 200 ∧
    (writeN 1 rec 200 { buffer := [], persisted := 0 }).buffer.length = 0 ∧
    (writeN 1 rec 201 { buffer := [], persisted := 0 }).persisted = 200 ∧
    (writeN 1 rec 201 { buffer := [], persisted := 0 }).buffer.length = 1 ∧
    (logTimerTick (writeN 1 rec 201 { buffer := [], persisted := 0 })).persisted = 201 := by
  have h199 := writeN_counts rec 199 { buffer := [], persisted := 0 }
  have h200 := writeN_counts rec 200 { buffer := [], persisted := 0 }
  have h201 := writeN_counts rec 201 { buffer := [], persisted := 0 }
  simp only [List.length_nil] at h199 h200 h201
  refine ⟨?_, ?_, ?_, ?_, ?_, ?_⟩
  · rw [h199.2]; decide
  · rw [h200.2]; decide
  · rw [h200.1]; decide
  · rw [h201.2]; decide
  · rw [h201.1]; decide
  · rw [logTimerTick_persisted, h201.1, h201.2]; decide

/-- C7: with Logs.MaxDays <= 0, any number of log writes — including sequences
past the 200-record threshold — leaves the sink unchanged and persists zero
rows. -/
theorem logSink_disabled_no_rows (d : Int) (rec : LogRecord) (n : Nat) (hd : d ≤ 0) :
    writeN d rec n { buffer := [], persisted := 0 } = { buffer := [], persisted := 0 } ∧
    (writeN d rec n { buffer := [], persisted := 0 }).persisted = 0 := by
  have hw : ∀ st, logWrite d rec st = st := by
    intro st
    unfold logWrite
    rw [if_pos hd]
  have hmain : ∀ (m : Nat) (st : LogSinkState), writeN d rec m st = st := by
    intro m
    induction m with
    | zero => intro st; rfl
    | succ k ih =>
      intro st
      rw [writeN, hw]
      exact ih st
  exact ⟨hmain n _, by rw [hmain n _]⟩

/-- C7 witness: 201 writes with MaxDays = 0 persist zero rows. -/
theorem logSink_disabled_no_rows_witness :
    (writeN 0 { message := [] } 201 { buffer := [], persisted := 0 }).persisted = 0 :=
  (logSink_disabled_no_rows 0 { message := [] } 201 (by decide)).2

/-- C8: saving settings immediately installs the new handler level with no
restart step: in non-dev mode Enabled(level) holds exactly for
level >= MinLevel, in dev mode exactly for level >= MinLevel - 1 (one severity
level lower); with MinLevel = 4 the exact tables are non-dev 3 disabled /
4, 5 enabled and dev 3, 4, 5 all enabled. -/
theorem saveSettings_minLevel_enabled (app : BaseApp) (s : Settings) (lvl : Int)
    (lg : LoggerState) (h : app.logger = some lg) :
    (saveSettings app s).logger
      = some { minLevel := effectiveMinLevel app.isDev s.logsMinLevel } ∧
    (saveSettings app s).settings = some s ∧
    (app.isDev = false →
      (handlerEnabled { minLevel := effectiveMinLevel app.isDev s.logsMinLevel } lvl = true ↔
        s.logsMinLevel ≤ lvl)) ∧
    (app.isDev = true →
      (handlerEnabled { minLevel := effectiveMinLevel app.isDev s.logsMinLevel } lvl = true ↔
        s.logsMinLevel - 1 ≤ lvl)) ∧
    (handlerEnabled { minLevel := effectiveMinLevel false 4 } 3 = false ∧
     handlerEnabled { minLevel := effectiveMinLevel false 4 } 4 = true ∧
     handlerEnabled { minLevel := effectiveMinLevel false 4 } 5 = true ∧
     handlerEnabled { minLevel := effectiveMinLevel true 4 } 3 = true ∧
     handlerEnabled { minLevel := effectiveMinLevel true 4 } 4 = true ∧
     handlerEnabled { minLevel := effectiveMinLevel true 4 } 5 = true) := by
  refine ⟨?_, rfl, ?_, ?_, by decide, by decide, by decide, by decide, by decide, by decide⟩
  · simp [saveSettings, h]
  · intro hdev
    simp [handlerEnabled, effectiveMinLevel, hdev]
  · intro hdev
    simp [handlerEnabled, effectiveMinLevel, hdev]

/-- C8 witness: saving MinLevel = 4 on the non-dev fixture app installs the
handler level 4 immediately. -/
theorem saveSettings_minLevel_enabled_witness :
    (saveSettings (appFix none) { logsMaxDays := 1, logsMinLevel := 4 }).logger
      = some { minLevel := effectiveMinLevel false 4 } :=
  (saveSettings_minLevel_enabled (appFix none) { logsMaxDays := 1, logsMinLevel := 4 } 3
    { minLevel := 4 } rfl).1

end Pocketbase
